import Mathlib

set_option maxHeartbeats 1000000

namespace Voicebox

/-- Contract of the external tokenizer: the two reserved symbols it exposes. -/
structure Tokenizer where
  silence_token : String
  unknown_token : String
deriving DecidableEq

/-- One interval of a TextGrid tier. The code reads only maxTime and mark of
each interval, so the embedding keeps exactly those fields; times are rationals
since the concrete values of interest are exactly representable. -/
structure Interval where
  maxTime : ℚ
  mark : String
deriving DecidableEq

namespace DS

/-- Symbol resolution of extract_textgrid in utils/dataset.py: an empty mark
becomes the silence token, a spn mark becomes the unknown token, anything else
passes through; the two rewrites are applied in sequence, as in the source. -/
def resolveTok (tokenizer : Tokenizer) (mark : String) : String :=
  let tok := mark
  let tok := if tok = "" then tokenizer.silence_token else tok
  let tok := if tok = "spn" then tokenizer.unknown_token else tok
  tok

/-- Loop of extract_textgrid in utils/dataset.py, with the running time as an
explicit argument: each interval contributes one resolved token and the frame
count floor of the elapsed time over phoneme_duration, and the running time
advances to the interval end. -/
def extractFrom (tokenizer : Tokenizer) (phoneme_duration : ℚ) :
    ℚ → List Interval → List String × List Int
  | _, [] => ([], [])
  | time, t :: rest =>
    let ends := t.maxTime
    let duration : Int := Int.floor ((ends - time) / phoneme_duration)
    let tok := resolveTok tokenizer t.mark
    let r := extractFrom tokenizer phoneme_duration ends rest
    (tok :: r.1, duration :: r.2)

/-- extract_textgrid of utils/dataset.py: the loop started at time 0. -/
def extract_textgrid (tokenizer : Tokenizer) (phoneme_duration : ℚ)
    (tokens : List Interval) : List String × List Int :=
  extractFrom tokenizer phoneme_duration 0 tokens

end DS

/-- Expansion stage shared by both dataset classes: each (token, duration)
pair contributes duration repetitions of the token; a run of the Python loop
for i in range d appends max d 0 copies, which Int.toNat captures. -/
def expandPairs : List (String × Int) → List String
  | [] => []
  | p :: rest => List.replicate p.2.toNat p.1 ++ expandPairs rest

/-- Expansion of parallel token and duration lists, as in the phonemes loop of
AlignedDataset and TextGridDataset. -/
def expandTokens (tokens : List String) (durations : List Int) : List String :=
  expandPairs (tokens.zip durations)

/-- End time of the interval at index i, default 0 out of range. -/
def endAt (xs : List Interval) (i : Nat) : ℚ :=
  ((xs.get? i).map Interval.maxTime).getD 0

/-- Running time seen by the interval at index i when the loop starts at
time0: time0 for the first interval, the previous end time afterwards. -/
def prevAt (time0 : ℚ) (xs : List Interval) (i : Nat) : ℚ :=
  if i = 0 then time0 else endAt xs (i - 1)

theorem extractFrom_durations (tokenizer : Tokenizer) (pd : ℚ) :
    ∀ (xs : List Interval) (time0 : ℚ) (i : Nat), i < xs.length →
      (DS.extractFrom tokenizer pd time0 xs).2.getD i 0 =
        Int.floor ((endAt xs i - prevAt time0 xs i) / pd) := by
  intro xs
  induction xs with
  | nil => intro time0 i hi; simp at hi
  | cons t rest ih =>
    intro time0 i hi
    cases i with
    | zero =>
      simp [DS.extractFrom, endAt, prevAt]
    | succ j =>
      have hj : j < rest.length := by simpa using hi
      have h1 : endAt (t :: rest) (j + 1) = endAt rest j := by simp [endAt]
      have h2 : prevAt time0 (t :: rest) (j + 1) = prevAt t.maxTime rest j := by
        cases j with
        | zero => simp [prevAt, endAt]
        | succ k => simp [prevAt, endAt]
      have h3 := ih t.maxTime j hj
      simp only [DS.extractFrom, List.getD, List.get?_cons_succ] at h3 ⊢
      rw [h3, h1, h2]

theorem extractFrom_tokens (tokenizer : Tokenizer) (pd : ℚ) :
    ∀ (xs : List Interval) (time0 : ℚ),
      (DS.extractFrom tokenizer pd time0 xs).1 =
        xs.map (fun t => DS.resolveTok tokenizer t.mark) := by
  intro xs
  induction xs with
  | nil => intro time0; simp [DS.extractFrom]
  | cons t rest ih =>
    intro time0
    simp [DS.extractFrom, ih]

namespace TA

/-- Symbol resolution of extract_textgrid in train_audio.py: only the empty
mark is rewritten, to the silence token; there is no rewrite of spn. -/
def resolveTok (tokenizer : Tokenizer) (mark : String) : String :=
  let tok := mark
  let tok := if tok = "" then tokenizer.silence_token else tok
  tok

/-- Loop of extract_textgrid in train_audio.py, which hardcodes
token_duration as 0.01 seconds, with the running time explicit. -/
def extractFrom (tokenizer : Tokenizer) :
    ℚ → List Interval → List String × List Int
  | _, [] => ([], [])
  | time, t :: rest =>
    let token_duration : ℚ := 1 / 100
    let ends := t.maxTime
    let duration : Int := Int.floor ((ends - time) / token_duration)
    let tok := resolveTok tokenizer t.mark
    let r := extractFrom tokenizer ends rest
    (tok :: r.1, duration :: r.2)

/-- extract_textgrid of train_audio.py: the loop started at time 0. -/
def extract_textgrid (tokenizer : Tokenizer) (tokens : List Interval) :
    List String × List Int :=
  extractFrom tokenizer 0 tokens

theorem extractFrom_tokens_ta (tokenizer : Tokenizer) :
    ∀ (xs : List Interval) (time0 : ℚ),
      (TA.extractFrom tokenizer time0 xs).1 =
        xs.map (fun t => TA.resolveTok tokenizer t.mark) := by
  intro xs
  induction xs with
  | nil => intro time0; simp [TA.extractFrom]
  | cons t rest ih =>
    intro time0
    simp [TA.extractFrom, ih]

end TA

theorem expandPairs_append (xs ys : List (String × Int)) :
    expandPairs (xs ++ ys) = expandPairs xs ++ expandPairs ys := by
  induction xs with
  | nil => simp [expandPairs]
  | cons p rest ih => simp [expandPairs, ih]

/-- Tokenizer used for concrete instances: distinct reserved symbols that are
not themselves the literal spn. -/
def tkW : Tokenizer := ⟨"SIL", "UNK"⟩

/-- Intervals of the concrete decoding example of the spec: marks a, empty
and b ending at times 1, 1.5 and 2 seconds. -/
def exampleIntervals : List Interval := [⟨1, "a"⟩, ⟨3 / 2, ""⟩, ⟨2, "b"⟩]

/-- C3: each interval contributes floor of elapsed time over phoneme_duration
frames with the running time advanced to its end time, the expansion repeats
each resolved symbol that many times, and on the concrete interval list the
decoded sequence is a, a, silence, b with per-interval frame counts 2, 1, 1. -/
theorem C3_alignment_decoder :
    (∀ (tokenizer : Tokenizer) (pd time0 : ℚ) (xs : List Interval) (i : Nat),
        i < xs.length →
        (DS.extractFrom tokenizer pd time0 xs).2.getD i 0 =
          Int.floor ((endAt xs i - prevAt time0 xs i) / pd)) ∧
    DS.extract_textgrid tkW (1 / 2) exampleIntervals = (["a", "SIL", "b"], [2, 1, 1]) ∧
    expandTokens ["a", "SIL", "b"] [2, 1, 1] = ["a", "a", "SIL", "b"] := by
  refine ⟨fun tk pd time0 xs i hi => extractFrom_durations tk pd xs time0 i hi, ?_, ?_⟩
  · norm_num [DS.extract_textgrid, DS.extractFrom, DS.resolveTok, exampleIntervals, tkW]
    decide
  · rfl

/-- Witness for C3 at the first interval of the concrete example. -/
theorem C3_alignment_decoder_witness :
    (DS.extractFrom tkW (1 / 2) 0 exampleIntervals).2.getD 0 0 =
      Int.floor ((endAt exampleIntervals 0 - prevAt 0 exampleIntervals 0) / (1 / 2)) :=
  C3_alignment_decoder.1 tkW (1 / 2) 0 exampleIntervals 0 (by decide)

/-- C9: an interval whose computed duration is 0 contributes exactly zero
tokens to the dense frame sequence, and expansion of the remaining entries is
unaffected. -/
theorem C9_zero_duration_contributes_nothing :
    ∀ (toks1 toks2 : List String) (durs1 durs2 : List Int) (tok : String),
      toks1.length = durs1.length →
      expandTokens (toks1 ++ tok :: toks2) (durs1 ++ (0 : Int) :: durs2) =
        expandTokens toks1 durs1 ++ expandTokens toks2 durs2 := by
  intro toks1 toks2 durs1 durs2 tok h
  unfold expandTokens
  rw [List.zip_append h, expandPairs_append]
  simp [expandPairs, List.zip]

/-- Witness for C9: a middle zero-duration silence contributes no frames. -/
theorem C9_zero_duration_witness :
    expandTokens (["a"] ++ "SIL" :: ["b"]) ([2] ++ (0 : Int) :: [1]) =
      expandTokens ["a"] [2] ++ expandTokens ["b"] [1] :=
  C9_zero_duration_contributes_nothing ["a"] ["b"] [2] [1] "SIL" (by decide)

/-- Interval list with non-monotonic end times: the second interval ends at
0.5 seconds, before the first one ends at 1 second. -/
def badIntervals : List Interval := [⟨1, "a"⟩, ⟨1 / 2, "b"⟩]

/-- C6 counterexample: on a non-monotonic interval list the decoder returns a
value instead of failing; the offending interval gets a negative frame count
and the expansion silently drops its frames from the dense sequence. -/
theorem C6_counterexample :
    DS.extract_textgrid tkW (1 / 2) badIntervals = (["a", "b"], [2, -1]) ∧
    expandTokens ["a", "b"] [2, -1] = ["a", "a"] ∧
    "b" ∉ expandTokens ["a", "b"] [2, -1] := by
  refine ⟨?_, rfl, by decide⟩
  norm_num [DS.extract_textgrid, DS.extractFrom, DS.resolveTok, badIntervals, tkW]
  decide

/-- C6 amended: decoding a non-monotonic interval list raises nothing; an
interval ending strictly before the running time gets a strictly negative
frame count, and the expansion stage contributes zero frames for any
non-positive frame count, silently dropping that interval. -/
theorem C6_nonmonotonic_silently_dropped :
    (∀ (pre post : List (String × Int)) (tok : String) (d : Int), d ≤ 0 →
        expandPairs (pre ++ (tok, d) :: post) = expandPairs pre ++ expandPairs post) ∧
    (∀ (tk : Tokenizer) (pd time0 : ℚ) (t : Interval) (rest : List Interval),
        t.maxTime < time0 → 0 < pd →
        (DS.extractFrom tk pd time0 (t :: rest)).2.getD 0 0 < 0) := by
  constructor
  · intro pre post tok d hd
    rw [expandPairs_append]
    simp [expandPairs, Int.toNat_of_nonpos hd]
  · intro tk pd time0 t rest hlt hpd
    simp only [DS.extractFrom, List.getD, List.get?]
    have hx : (t.maxTime - time0) / pd < 0 :=
      div_neg_of_neg_of_pos (by linarith) hpd
    simpa using Int.floor_lt.2 (by push_cast; linarith)

/-- Witness for C6 at a concrete dropped interval and a concrete
non-monotonic list. -/
theorem C6_nonmonotonic_witness :
    expandPairs ([("a", 2)] ++ ("b", -1) :: []) = expandPairs [("a", 2)] ++ expandPairs [] ∧
    (DS.extractFrom tkW (1 / 2) 1 [⟨1 / 2, "b"⟩]).2.getD 0 0 < 0 :=
  ⟨C6_nonmonotonic_silently_dropped.1 [("a", 2)] [] "b" (-1) (by decide),
   C6_nonmonotonic_silently_dropped.2 tkW (1 / 2) 1 ⟨1 / 2, "b"⟩ [] (by norm_num) (by norm_num)⟩

/-- Single interval carrying the spoken-noise mark spn. -/
def spnIntervals : List Interval := [⟨1 / 100, "spn"⟩]

/-- C7 counterexample: the decoder of train_audio.py passes spn through
verbatim instead of resolving it to the unknown token. -/
theorem C7_counterexample :
    TA.extract_textgrid tkW spnIntervals = (["spn"], [1]) ∧
    "spn" ≠ tkW.unknown_token := by
  constructor
  · norm_num [TA.extract_textgrid, TA.extractFrom, TA.resolveTok, spnIntervals, tkW]
    decide
  · decide

/-- C7 amended: in utils/dataset.py an empty mark resolves to the silence
token, spn resolves to the unknown token and all other marks pass through;
in train_audio.py only the empty mark is rewritten, to the silence token,
and every other mark, spn included, passes through verbatim; both decoders
emit exactly the per-interval resolved symbols. -/
theorem C7_symbol_resolution :
    ∀ (tk : Tokenizer) (mark : String), tk.silence_token ≠ "spn" →
      (DS.resolveTok tk "" = tk.silence_token ∧
       DS.resolveTok tk "spn" = tk.unknown_token ∧
       (mark ≠ "" → mark ≠ "spn" → DS.resolveTok tk mark = mark) ∧
       TA.resolveTok tk "" = tk.silence_token ∧
       (mark ≠ "" → TA.resolveTok tk mark = mark)) ∧
      (∀ (pd : ℚ) (xs : List Interval),
        (DS.extract_textgrid tk pd xs).1 = xs.map (fun t => DS.resolveTok tk t.mark)) ∧
      (∀ xs : List Interval,
        (TA.extract_textgrid tk xs).1 = xs.map (fun t => TA.resolveTok tk t.mark)) := by
  intro tk mark h
  refine ⟨⟨?_, ?_, ?_, ?_, ?_⟩, ?_, ?_⟩
  · simp [DS.resolveTok, h]
  · simp [DS.resolveTok]
  · intro h1 h2; simp [DS.resolveTok, h1, h2]
  · simp [TA.resolveTok]
  · intro h1; simp [TA.resolveTok, h1]
  · intro pd xs; exact extractFrom_tokens tk pd xs 0
  · intro xs; exact TA.extractFrom_tokens_ta tk xs 0

/-- Witness for C7 at the concrete tokenizer and the mark x. -/
theorem C7_symbol_resolution_witness :
    DS.resolveTok tkW "spn" = tkW.unknown_token ∧
    ("x" ≠ "" → TA.resolveTok tkW "x" = "x") :=
  ⟨(C7_symbol_resolution tkW "x" (by decide)).1.2.1,
   (C7_symbol_resolution tkW "x" (by decide)).1.2.2.2.2⟩

namespace TA

/-- Mask construction of TextGridDataset.__getitem__ in train_audio.py, with
the random draws explicit: needMask is the outcome of the probability 0.3
test, mask_len and mask_offset are the two uniform draws. In the masking
branch the tensor starts at zeros, the slice from floor of mask_offset times
length to floor of mask_offset plus mask_len times length is set to one, and
the tensor is cast to bool; in the other branch the mask is all ones. -/
def makeMask (needMask : Bool) (mask_len mask_offset : ℚ) (length : Nat) : List Bool :=
  if needMask then
    let mask_start : Int := Int.floor (mask_offset * (length : ℚ))
    let mask_end : Int := Int.floor ((mask_offset + mask_len) * (length : ℚ))
    (List.range length).map
      (fun (i : Nat) => decide (mask_start ≤ (i : Int) ∧ (i : Int) < mask_end))
  else
    List.replicate length true

/-- Mask following the words of the spec instead: false exactly on that same
slice in the masking branch and true elsewhere, all true in the other branch.
Declared only to be compared against makeMask. -/
def makeMaskSpec (needMask : Bool) (mask_len mask_offset : ℚ) (length : Nat) : List Bool :=
  if needMask then
    let mask_start : Int := Int.floor (mask_offset * (length : ℚ))
    let mask_end : Int := Int.floor ((mask_offset + mask_len) * (length : ℚ))
    (List.range length).map
      (fun (i : Nat) => ! decide (mask_start ≤ (i : Int) ∧ (i : Int) < mask_end))
  else
    List.replicate length true

end TA

/-- C4 counterexample: at length 10 with draws mask_len 0.7 and mask_offset 0
the code produces true exactly on the masked slice from 0 to 7 and false
elsewhere, the reverse of the mask the claim describes. -/
theorem C4_counterexample :
    TA.makeMask true (7 / 10) 0 10 =
      [true, true, true, true, true, true, true, false, false, false] ∧
    TA.makeMaskSpec true (7 / 10) 0 10 =
      [false, false, false, false, false, false, false, true, true, true] ∧
    TA.makeMask true (7 / 10) 0 10 ≠ TA.makeMaskSpec true (7 / 10) 0 10 := by
  have h1 : Int.floor ((0 : ℚ) * ((10 : Nat) : ℚ)) = 0 := by norm_num
  have h2 : Int.floor (((0 : ℚ) + 7 / 10) * ((10 : Nat) : ℚ)) = 7 := by norm_num
  refine ⟨?_, ?_, ?_⟩
  · simp only [TA.makeMask, if_pos, h1, h2]
    decide
  · simp only [TA.makeMaskSpec, if_pos, h1, h2]
    decide
  · simp only [TA.makeMask, TA.makeMaskSpec, if_pos, h1, h2]
    decide

/-- C4 amended: the produced mask either is all true, in the no-masking
branch, or, in the masking branch, is true exactly on the single contiguous
index range from floor of mask_offset times length to floor of mask_offset
plus mask_len times length, and false everywhere else, so true rather than
false marks the hidden positions; the mask always has the requested length. -/
theorem C4_masking_policy :
    ∀ (mask_len mask_offset : ℚ) (length i : Nat),
      TA.makeMask false mask_len mask_offset length = List.replicate length true ∧
      (i < length →
        (TA.makeMask true mask_len mask_offset length).getD i false =
          decide (Int.floor (mask_offset * (length : ℚ)) ≤ (i : Int) ∧
            (i : Int) < Int.floor ((mask_offset + mask_len) * (length : ℚ)))) ∧
      (TA.makeMask true mask_len mask_offset length).length = length := by
  intro mask_len mask_offset length i
  refine ⟨by simp [TA.makeMask], ?_, ?_⟩
  · intro hi
    simp only [TA.makeMask, if_pos]
    rw [List.getD_eq_getElem?_getD, List.getElem?_map, List.getElem?_range hi]
    simp
  · simp only [TA.makeMask, if_pos]
    rw [List.length_map, List.length_range]

/-- Witness for C4 at length 10, draws 0.7 and 0, index 3. -/
theorem C4_masking_policy_witness :
    (TA.makeMask true (7 / 10) 0 10).getD 3 false =
      decide (Int.floor ((0 : ℚ) * ((10 : Nat) : ℚ)) ≤ ((3 : Nat) : Int) ∧
        ((3 : Nat) : Int) < Int.floor (((0 : ℚ) + 7 / 10) * ((10 : Nat) : ℚ))) :=
  (C4_masking_policy (7 / 10) 0 10 3).2.1 (by decide)

namespace DS

/-- Python slice of a list from start to stop with nonnegative bounds: the
elements at indices from start up to stop exclusive, clamped at the length. -/
def pySlice (xs : List α) (start stop : Nat) : List α := (xs.take stop).drop start

/-- Length normalizer at the tail of AlignedDataset.__getitem__ in
utils/dataset.py, with the random draw explicit. With l the token count, when
l exceeds max_length the window length becomes max_length and the offset is
the draw from randint over 0 to the token count minus max_length, otherwise
the offset stays 0 and the window length stays l; both phonemes and audio are
then sliced from offset to offset plus the window length. -/
def lengthNormalize (max_length offsetChoice : Nat) (phonemes : List String)
    (audio : List α) : List String × List α :=
  let l := phonemes.length
  let lo : Nat × Nat := if max_length < l then (max_length, offsetChoice) else (l, 0)
  (pySlice phonemes lo.2 (lo.2 + lo.1), pySlice audio lo.2 (lo.2 + lo.1))

end DS

theorem pySlice_length (xs : List α) (start stop : Nat) :
    (DS.pySlice xs start stop).length = min stop xs.length - start := by
  simp [DS.pySlice]

/-- C1 amended: when the token count exceeds max_length both lists are sliced
to the same window of length max_length at the drawn offset; otherwise the
offset is 0, the tokens remain full length and the audio is truncated to the
token count rather than remaining full length; in either case the returned
tokens and audio have exactly equal length. -/
theorem C1_length_normalizer :
    ∀ (α : Type) (max_length offsetChoice : Nat) (phonemes : List String) (audio : List α),
      phonemes.length ≤ audio.length →
      (max_length < phonemes.length → offsetChoice ≤ phonemes.length - max_length →
        DS.lengthNormalize max_length offsetChoice phonemes audio =
          (DS.pySlice phonemes offsetChoice (offsetChoice + max_length),
           DS.pySlice audio offsetChoice (offsetChoice + max_length)) ∧
        (DS.lengthNormalize max_length offsetChoice phonemes audio).1.length = max_length ∧
        (DS.lengthNormalize max_length offsetChoice phonemes audio).2.length = max_length) ∧
      (phonemes.length ≤ max_length →
        DS.lengthNormalize max_length offsetChoice phonemes audio =
          (phonemes, audio.take phonemes.length) ∧
        (DS.lengthNormalize max_length offsetChoice phonemes audio).1.length =
          phonemes.length ∧
        (DS.lengthNormalize max_length offsetChoice phonemes audio).2.length =
          phonemes.length) := by
  intro α max_length offsetChoice phonemes audio haudio
  constructor
  · intro hcrop hoff
    have hif : (max_length < phonemes.length) = True := by simp [hcrop]
    have hwin : offsetChoice + max_length ≤ phonemes.length := by omega
    refine ⟨?_, ?_, ?_⟩
    · simp [DS.lengthNormalize, hif]
    · simp only [DS.lengthNormalize, hif, if_true]
      rw [pySlice_length]
      omega
    · simp only [DS.lengthNormalize, hif, if_true]
      rw [pySlice_length]
      omega
  · intro hfit
    have hif : (max_length < phonemes.length) = False := by simp; omega
    refine ⟨?_, ?_, ?_⟩
    · simp [DS.lengthNormalize, hif, DS.pySlice]
    · simp only [DS.lengthNormalize, hif, if_false]
      rw [pySlice_length]
      omega
    · simp only [DS.lengthNormalize, hif, if_false]
      rw [pySlice_length]
      omega

/-- Witness for C1 in the cropping branch: three tokens, four audio frames,
max_length 2, offset 1. -/
theorem C1_length_normalizer_witness :
    DS.lengthNormalize 2 1 ["a", "b", "c"] ([10, 20, 30, 40] : List Int) =
      (DS.pySlice ["a", "b", "c"] 1 (1 + 2),
       DS.pySlice ([10, 20, 30, 40] : List Int) 1 (1 + 2)) :=
  ((C1_length_normalizer Int 2 1 ["a", "b", "c"] [10, 20, 30, 40]
      (by decide)).1 (by decide) (by decide)).1

/-- C1 counterexample: two tokens, three audio frames, max_length 5; the
token count is within max_length and the audio is at least as long as the
tokens, yet the returned audio is cut to the token count instead of remaining
full length. -/
theorem C1_counterexample :
    (["a", "b"] : List String).length ≤ ([10, 20, 30] : List Int).length ∧
    ¬ (["a", "b"] : List String).length > 5 ∧
    (DS.lengthNormalize 5 0 ["a", "b"] ([10, 20, 30] : List Int)).2 = [10, 20] ∧
    (DS.lengthNormalize 5 0 ["a", "b"] ([10, 20, 30] : List Int)).2 ≠ [10, 20, 30] := by
  decide

namespace TA

/-- Audio cut of TextGridDataset.__getitem__ in train_audio.py: the audio is
sliced up to the phoneme count; a Python slice clamps at the available
length, so shorter audio comes back unchanged. -/
def cutAudio (phonemes : List String) (audio : List α) : List α :=
  audio.take phonemes.length

end TA

/-- C5 counterexample: one audio frame against three tokens; construction
returns the one-frame audio unchanged, with no failure, so the example comes
back with audio silently shorter than its token sequence. -/
theorem C5_counterexample :
    ([5] : List Int).length < (["a", "b", "c"] : List String).length ∧
    TA.cutAudio ["a", "b", "c"] ([5] : List Int) = [5] ∧
    (TA.cutAudio ["a", "b", "c"] ([5] : List Int)).length <
      (["a", "b", "c"] : List String).length := by
  decide

/-- C5 amended: example construction never fails; the audio is truncated to
at most the token count, so when the audio is at least as long as the tokens
the result has exactly the token count, and when the audio is strictly
shorter it is returned unchanged, silently shorter than the tokens, both in
train_audio.py and in the normalizer path of utils/dataset.py. -/
theorem C5_short_audio_silently_returned :
    ∀ (α : Type) (phonemes : List String) (audio : List α) (max_length : Nat),
      (TA.cutAudio phonemes audio).length = min phonemes.length audio.length ∧
      (phonemes.length ≤ audio.length →
        (TA.cutAudio phonemes audio).length = phonemes.length) ∧
      (audio.length < phonemes.length → TA.cutAudio phonemes audio = audio) ∧
      (audio.length < phonemes.length → phonemes.length ≤ max_length →
        (DS.lengthNormalize max_length 0 phonemes audio).2 = audio) := by
  intro α phonemes audio max_length
  refine ⟨by simp [TA.cutAudio, Nat.min_comm], ?_, ?_, ?_⟩
  · intro h
    simp [TA.cutAudio]
    omega
  · intro h
    exact List.take_of_length_le (by omega)
  · intro h hfit
    have hif : (max_length < phonemes.length) = False := by simp; omega
    simp only [DS.lengthNormalize, hif, if_false]
    simp only [DS.pySlice, Nat.zero_add, List.drop_zero]
    exact List.take_of_length_le (by omega)

/-- Witness for C5 with one audio frame against three tokens. -/
theorem C5_short_audio_witness :
    TA.cutAudio ["a", "b", "c"] ([5] : List Int) = [5] :=
  (C5_short_audio_silently_returned Int ["a", "b", "c"] [5] 10).2.2.1 (by decide)

/-- Minimum over a list of naturals, as the Python builtin min on a nonempty
list; 0 on the empty list, where the Python call would instead raise. -/
def listMin : List Nat → Nat
  | [] => 0
  | [x] => x
  | x :: y :: rest => min x (listMin (y :: rest))

theorem listMin_le (xs : List Nat) : ∀ x ∈ xs, listMin xs ≤ x := by
  induction xs with
  | nil => simp
  | cons a rest ih =>
    cases rest with
    | nil => simp [listMin]
    | cons b rest2 =>
      intro x hx
      rcases List.mem_cons.1 hx with rfl | hx
      · exact min_le_left _ _
      · exact le_trans (min_le_right _ _) (ih x hx)

theorem listMin_mem (xs : List Nat) (h : xs ≠ []) : listMin xs ∈ xs := by
  induction xs with
  | nil => simp at h
  | cons a rest ih =>
    cases rest with
    | nil => simp [listMin]
    | cons b rest2 =>
      show min a (listMin (b :: rest2)) ∈ a :: b :: rest2
      rcases min_cases a (listMin (b :: rest2)) with ⟨heq, _⟩ | ⟨heq, _⟩
      · rw [heq]; exact List.mem_cons_self _ _
      · rw [heq]; exact List.mem_cons_of_mem _ (ih (by simp))

theorem pySlice_infix (xs : List α) (s e : Nat) (hse : s ≤ e) :
    ∃ pre suf, pre ++ DS.pySlice xs s e ++ suf = xs := by
  refine ⟨xs.take s, xs.drop e, ?_⟩
  have h1 : xs.take s = (xs.take e).take s := by
    rw [List.take_take, Nat.min_eq_left hse]
  rw [DS.pySlice, h1, List.take_append_drop, List.take_append_drop]

namespace DS

/-- Crop of one batch entry in collate_to_shortest of utils/dataset.py, with
the random draw explicit: an entry with more tokens than min_len is sliced on
both components to the window from offset to offset plus min_len; any other
entry passes through unchanged. -/
def cropPair (min_len offset : Nat) (b : List String × List α) :
    List String × List α :=
  if min_len < b.1.length then
    (pySlice b.1 offset (offset + min_len), pySlice b.2 offset (offset + min_len))
  else b

/-- collate_to_shortest of utils/dataset.py with the per-entry random draws
listed explicitly: min_len is the least token count over the batch, and each
entry is cropped against its own draw. -/
def collate_to_shortest (offsets : List Nat) (batch : List (List String × List α)) :
    List (List String × List α) :=
  let min_len := listMin (batch.map (fun p => p.1.length))
  List.zipWith (cropPair min_len) offsets batch

end DS

namespace TA

/-- Crop of one batch entry in collate_to_shortest of train_audio.py: each
entry carries tokens, audio and mask, and all three components are sliced to
the same window when the entry has more tokens than min_len. -/
def cropTriple (min_len offset : Nat) (b : List String × List α × List Bool) :
    List String × List α × List Bool :=
  if min_len < b.1.length then
    (DS.pySlice b.1 offset (offset + min_len),
     DS.pySlice b.2.1 offset (offset + min_len),
     DS.pySlice b.2.2 offset (offset + min_len))
  else b

/-- collate_to_shortest of train_audio.py with the per-entry draws explicit. -/
def collate_to_shortest (offsets : List Nat)
    (batch : List (List String × List α × List Bool)) :
    List (List String × List α × List Bool) :=
  let min_len := listMin (batch.map (fun p => p.1.length))
  List.zipWith (cropTriple min_len) offsets batch

end TA

/-- C2: in both collators the shared output length L is the minimum token
count over the batch, attained on it; an entry with more tokens than L is
sliced on every component, tokens, audio and, in train_audio.py, mask, to the
same window from its own offset; an entry at L passes through unchanged; and
every output component is a contiguous window of the input, so no output
position is padding. Entries are assumed to carry components of equal
length, as the sources produce, and offsets within the randint range. -/
theorem C2_batch_collator :
    ∀ (α : Type) (offsets : List Nat) (i : Nat),
      (∀ (batch : List (List String × List α)) (L off : Nat)
          (b out : List String × List α),
        L = listMin (batch.map (fun p => p.1.length)) →
        b = batch.getD i ([], []) →
        off = offsets.getD i 0 →
        out = (DS.collate_to_shortest offsets batch).getD i ([], []) →
        offsets.length = batch.length →
        b.2.length = b.1.length →
        off ≤ b.1.length - L →
        i < batch.length →
        (DS.collate_to_shortest offsets batch).length = batch.length ∧
        L ∈ batch.map (fun p => p.1.length) ∧
        (∀ x ∈ batch.map (fun p => p.1.length), L ≤ x) ∧
        out.1.length = L ∧
        out.2.length = L ∧
        (b.1.length = L → out = b) ∧
        (L < b.1.length →
          out = (DS.pySlice b.1 off (off + L), DS.pySlice b.2 off (off + L))) ∧
        (∃ pre suf, pre ++ out.1 ++ suf = b.1) ∧
        (∃ pre suf, pre ++ out.2 ++ suf = b.2)) ∧
      (∀ (batch : List (List String × List α × List Bool)) (L off : Nat)
          (b out : List String × List α × List Bool),
        L = listMin (batch.map (fun p => p.1.length)) →
        b = batch.getD i ([], [], []) →
        off = offsets.getD i 0 →
        out = (TA.collate_to_shortest offsets batch).getD i ([], [], []) →
        offsets.length = batch.length →
        b.2.1.length = b.1.length →
        b.2.2.length = b.1.length →
        off ≤ b.1.length - L →
        i < batch.length →
        (TA.collate_to_shortest offsets batch).length = batch.length ∧
        out.1.length = L ∧
        out.2.1.length = L ∧
        out.2.2.length = L ∧
        (b.1.length = L → out = b) ∧
        (L < b.1.length →
          out = (DS.pySlice b.1 off (off + L), DS.pySlice b.2.1 off (off + L),
                 DS.pySlice b.2.2 off (off + L))) ∧
        (∃ pre suf, pre ++ out.1 ++ suf = b.1) ∧
        (∃ pre suf, pre ++ out.2.1 ++ suf = b.2.1) ∧
        (∃ pre suf, pre ++ out.2.2 ++ suf = b.2.2)) := by
  intro α offsets i
  constructor
  · intro batch L off b out hL hb hoffd houtd hlen heq hoffle hi
    subst hL hb hoffd houtd
    have hleni : i < offsets.length := by omega
    have hA : (DS.collate_to_shortest offsets batch).length = batch.length := by
      simp only [DS.collate_to_shortest]
      rw [List.length_zipWith, hlen, Nat.min_self]
    have hout : (DS.collate_to_shortest offsets batch).getD i ([], []) =
        DS.cropPair (listMin (batch.map (fun p => p.1.length))) (offsets.getD i 0)
          (batch.getD i ([], [])) := by
      simp only [DS.collate_to_shortest]
      rw [List.getD_eq_getElem _ _ (by rw [List.length_zipWith, hlen, Nat.min_self]; exact hi)]
      rw [List.getElem_zipWith]
      rw [List.getD_eq_getElem _ _ hleni, List.getD_eq_getElem _ _ hi]
    have hmem : (batch.getD i ([], [])).1.length ∈ batch.map (fun p => p.1.length) := by
      rw [List.getD_eq_getElem _ _ hi]
      exact List.mem_map_of_mem _ (List.getElem_mem hi)
    have hLle := listMin_le (batch.map (fun p => p.1.length)) _ hmem
    have hne : batch.map (fun p => p.1.length) ≠ [] := by
      cases batch with
      | nil => simp at hi
      | cons c cs => simp
    refine ⟨hA, listMin_mem _ hne, listMin_le _, ?_⟩
    rcases eq_or_lt_of_le hLle with hcase | hcase
    · have hcrop : DS.cropPair (listMin (batch.map (fun p => p.1.length)))
          (offsets.getD i 0) (batch.getD i ([], [])) = batch.getD i ([], []) := by
        simp [DS.cropPair, hcase]
      refine ⟨?_, ?_, ?_, ?_, ?_, ?_⟩
      · rw [hout, hcrop, ← hcase]
      · rw [hout, hcrop, heq, ← hcase]
      · intro _; rw [hout, hcrop]
      · intro hlt; omega
      · exact ⟨[], [], by rw [hout, hcrop]; simp⟩
      · exact ⟨[], [], by rw [hout, hcrop]; simp⟩
    · have hwin : offsets.getD i 0 + listMin (batch.map (fun p => p.1.length)) ≤
          (batch.getD i ([], [])).1.length := by omega
      have hcrop : DS.cropPair (listMin (batch.map (fun p => p.1.length)))
          (offsets.getD i 0) (batch.getD i ([], [])) =
          (DS.pySlice (batch.getD i ([], [])).1 (offsets.getD i 0)
            (offsets.getD i 0 + listMin (batch.map (fun p => p.1.length))),
           DS.pySlice (batch.getD i ([], [])).2 (offsets.getD i 0)
            (offsets.getD i 0 + listMin (batch.map (fun p => p.1.length)))) := by
        simp only [DS.cropPair]
        rw [if_pos hcase]
      refine ⟨?_, ?_, ?_, ?_, ?_, ?_⟩
      · rw [hout, hcrop]
        show (DS.pySlice _ _ _).length = _
        rw [pySlice_length, Nat.min_eq_left hwin]
        omega
      · rw [hout, hcrop]
        show (DS.pySlice _ _ _).length = _
        rw [pySlice_length, heq, Nat.min_eq_left hwin]
        omega
      · intro hpass; omega
      · intro _; rw [hout, hcrop]
      · rw [hout, hcrop]
        exact pySlice_infix _ _ _ (Nat.le_add_right _ _)
      · rw [hout, hcrop]
        exact pySlice_infix _ _ _ (Nat.le_add_right _ _)
  · intro batch L off b out hL hb hoffd houtd hlen heqa heqm hoffle hi
    subst hL hb hoffd houtd
    have hleni : i < offsets.length := by omega
    have hA : (TA.collate_to_shortest offsets batch).length = batch.length := by
      simp only [TA.collate_to_shortest]
      rw [List.length_zipWith, hlen, Nat.min_self]
    have hout : (TA.collate_to_shortest offsets batch).getD i ([], [], []) =
        TA.cropTriple (listMin (batch.map (fun p => p.1.length))) (offsets.getD i 0)
          (batch.getD i ([], [], [])) := by
      simp only [TA.collate_to_shortest]
      rw [List.getD_eq_getElem _ _ (by rw [List.length_zipWith, hlen, Nat.min_self]; exact hi)]
      rw [List.getElem_zipWith]
      rw [List.getD_eq_getElem _ _ hleni, List.getD_eq_getElem _ _ hi]
    have hmem : (batch.getD i ([], [], [])).1.length ∈ batch.map (fun p => p.1.length) := by
      rw [List.getD_eq_getElem _ _ hi]
      exact List.mem_map_of_mem _ (List.getElem_mem hi)
    have hLle := listMin_le (batch.map (fun p => p.1.length)) _ hmem
    refine ⟨hA, ?_⟩
    rcases eq_or_lt_of_le hLle with hcase | hcase
    · have hcrop : TA.cropTriple (listMin (batch.map (fun p => p.1.length)))
          (offsets.getD i 0) (batch.getD i ([], [], [])) = batch.getD i ([], [], []) := by
        simp [TA.cropTriple, hcase]
      refine ⟨?_, ?_, ?_, ?_, ?_, ?_, ?_, ?_⟩
      · rw [hout, hcrop, ← hcase]
      · rw [hout, hcrop, heqa, ← hcase]
      · rw [hout, hcrop, heqm, ← hcase]
      · intro _; rw [hout, hcrop]
      · intro hlt; omega
      · exact ⟨[], [], by rw [hout, hcrop]; simp⟩
      · exact ⟨[], [], by rw [hout, hcrop]; simp⟩
      · exact ⟨[], [], by rw [hout, hcrop]; simp⟩
    · have hwin : offsets.getD i 0 + listMin (batch.map (fun p => p.1.length)) ≤
          (batch.getD i ([], [], [])).1.length := by omega
      have hcrop : TA.cropTriple (listMin (batch.map (fun p => p.1.length)))
          (offsets.getD i 0) (batch.getD i ([], [], [])) =
          (DS.pySlice (batch.getD i ([], [], [])).1 (offsets.getD i 0)
            (offsets.getD i 0 + listMin (batch.map (fun p => p.1.length))),
           DS.pySlice (batch.getD i ([], [], [])).2.1 (offsets.getD i 0)
            (offsets.getD i 0 + listMin (batch.map (fun p => p.1.length))),
           DS.pySlice (batch.getD i ([], [], [])).2.2 (offsets.getD i 0)
            (offsets.getD i 0 + listMin (batch.map (fun p => p.1.length)))) := by
        simp only [TA.cropTriple]
        rw [if_pos hcase]
      refine ⟨?_, ?_, ?_, ?_, ?_, ?_, ?_, ?_⟩
      · rw [hout, hcrop]
        show (DS.pySlice _ _ _).length = _
        rw [pySlice_length, Nat.min_eq_left hwin]
        omega
      · rw [hout, hcrop]
        show (DS.pySlice _ _ _).length = _
        rw [pySlice_length, heqa, Nat.min_eq_left hwin]
        omega
      · rw [hout, hcrop]
        show (DS.pySlice _ _ _).length = _
        rw [pySlice_length, heqm, Nat.min_eq_left hwin]
        omega
      · intro hpass; omega
      · intro _; rw [hout, hcrop]
      · rw [hout, hcrop]
        exact pySlice_infix _ _ _ (Nat.le_add_right _ _)
      · rw [hout, hcrop]
        exact pySlice_infix _ _ _ (Nat.le_add_right _ _)
      · rw [hout, hcrop]
        exact pySlice_infix _ _ _ (Nat.le_add_right _ _)

/-- Witness for C2 on a concrete two-entry batch for each collator: the
longer entry is cropped to the one-frame window at its offset. -/
theorem C2_batch_collator_witness :
    ((DS.collate_to_shortest [0, 1]
        [(["a"], [10]), (["b", "c"], [20, 30])] : List (List String × List Int)).getD 1
        ([], []) =
      (DS.pySlice ["b", "c"] 1 (1 + 1), DS.pySlice ([20, 30] : List Int) 1 (1 + 1))) ∧
    ((TA.collate_to_shortest [0, 1]
        [(["a"], [10], [true]), (["b", "c"], [20, 30], [true, false])] :
          List (List String × List Int × List Bool)).getD 1 ([], [], []) =
      (DS.pySlice ["b", "c"] 1 (1 + 1), DS.pySlice ([20, 30] : List Int) 1 (1 + 1),
       DS.pySlice [true, false] 1 (1 + 1))) := by
  constructor
  · have h := ((C2_batch_collator Int [0, 1] 1).1
      [(["a"], [10]), (["b", "c"], [20, 30])] 1 1 (["b", "c"], [20, 30]) _
      (by decide) (by decide) (by decide) rfl (by decide) (by decide) (by decide)
      (by decide))
    exact h.2.2.2.2.2.2.1 (by decide)
  · have h := ((C2_batch_collator Int [0, 1] 1).2
      [(["a"], [10], [true]), (["b", "c"], [20, 30], [true, false])] 1 1
      (["b", "c"], [20, 30], [true, false]) _
      (by decide) (by decide) (by decide) rfl (by decide) (by decide) (by decide)
      (by decide) (by decide))
    exact h.2.2.2.2.2.1 (by decide)

namespace DI

/-- Order used by the index builder in datasets_index.py: sorted is called
with key minus duration then path, so an entry precedes another when its
duration is larger, or the durations tie and its path is not larger. -/
def manifestLE (x y : String × ℚ) : Prop :=
  y.2 < x.2 ∨ (x.2 = y.2 ∧ x.1 ≤ y.1)

instance : DecidableRel manifestLE := fun x y => by
  unfold manifestLE; infer_instance

instance : IsTotal (String × ℚ) manifestLE := ⟨by
  intro a b
  rcases lt_trichotomy a.2 b.2 with h | h | h
  · exact Or.inr (Or.inl h)
  · rcases le_total a.1 b.1 with h2 | h2
    · exact Or.inl (Or.inr ⟨h, h2⟩)
    · exact Or.inr (Or.inr ⟨h.symm, h2⟩)
  · exact Or.inl (Or.inl h)⟩

instance : IsTrans (String × ℚ) manifestLE := ⟨by
  intro a b c hab hbc
  rcases hab with h1 | h1 <;> rcases hbc with h2 | h2
  · exact Or.inl (lt_trans h2 h1)
  · exact Or.inl (h2.1 ▸ h1)
  · exact Or.inl (by rw [h1.1]; exact h2)
  · exact Or.inr ⟨h1.1.trans h2.1, le_trans h1.2 h2.2⟩⟩

/-- Sorting step of main in datasets_index.py over the computed path and
duration pairs. -/
def sorted_files (durations : List (String × ℚ)) : List (String × ℚ) :=
  List.insertionSort manifestLE durations

/-- Lines written by main in datasets_index.py: one line per file, path then
comma then duration then newline, in sorted order; the textual rendering of
the duration is a parameter standing for the Python str call. -/
def manifestLines (render : ℚ → String) (durations : List (String × ℚ)) : List String :=
  (sorted_files durations).map (fun f => f.1 ++ "," ++ render f.2 ++ "\n")

end DI

/-- C8: the written manifest is sorted by descending duration with ascending
path tiebreak, one line per file of the form path comma duration newline; it
is a permutation of the computed results, and on durations 5, 5, 3 for paths
a, b, c the output order is a, b, c. -/
theorem C8_manifest_ordering :
    (∀ durations : List (String × ℚ),
      (DI.sorted_files durations).Sorted DI.manifestLE ∧
      (DI.sorted_files durations).Perm durations) ∧
    DI.sorted_files [("c", 3), ("b", 5), ("a", 5)] = [("a", 5), ("b", 5), ("c", 3)] ∧
    (∀ render : ℚ → String,
      DI.manifestLines render [("c", 3), ("b", 5), ("a", 5)] =
        ["a" ++ "," ++ render 5 ++ "\n", "b" ++ "," ++ render 5 ++ "\n",
         "c" ++ "," ++ render 3 ++ "\n"]) := by
  have hsorted : DI.sorted_files [("c", 3), ("b", 5), ("a", 5)] =
      [("a", 5), ("b", 5), ("c", 3)] := by
    norm_num [DI.sorted_files, List.insertionSort, List.orderedInsert, DI.manifestLE]
  refine ⟨fun durations => ⟨List.sorted_insertionSort _ _, List.perm_insertionSort _ _⟩,
    hsorted, fun render => ?_⟩
  rw [DI.manifestLines, hsorted]
  simp

namespace AFL

/-- First comma-separated field of a manifest row, the filename component of
the split in AudioFileListDataset.__getitem__; rows are char lists. -/
def rowFilename (row : List Char) : List Char := row.takeWhile (fun c => c != ',')

/-- Python slice of the filename up to minus 3: every character except the
last three. -/
def dropLast3 (xs : List Char) : List Char := xs.take (xs.length - 3)

/-- Path AudioFileListDataset.__getitem__ actually loads: the manifest
filename with its last three characters replaced by the two characters p and
t, as in the source expression filename up to minus 3 plus pt. -/
def loadedPath (row : List Char) : List Char := dropLast3 (rowFilename row) ++ ['p', 't']

end AFL

theorem takeWhile_all_append (p : Char → Bool) :
    ∀ (xs ys : List Char), (∀ c ∈ xs, p c = true) →
      (xs ++ ys).takeWhile p = xs ++ ys.takeWhile p := by
  intro xs ys
  induction xs with
  | nil => intro _; simp
  | cons a rest ih =>
    intro h
    have ha : p a = true := h a (List.mem_cons_self _ _)
    simp only [List.cons_append, List.takeWhile_cons, ha, if_true]
    rw [ih (fun c hc => h c (List.mem_cons_of_mem _ hc))]

/-- C10: the flat-file source does not load the path listed in the manifest
row; it loads the row filename with its last three characters replaced by pt,
so a row whose path ends in wav resolves to the sibling pt file, a path
different from the one in the row. -/
theorem C10_loaded_path :
    ∀ (stem rest : List Char), (∀ c ∈ stem, c ≠ ',') →
      AFL.rowFilename (stem ++ ".wav,".toList ++ rest) = stem ++ ".wav".toList ∧
      AFL.loadedPath (stem ++ ".wav,".toList ++ rest) = stem ++ ".pt".toList ∧
      stem ++ ".pt".toList ≠ stem ++ ".wav".toList := by
  intro stem rest h
  have hrow : AFL.rowFilename (stem ++ ".wav,".toList ++ rest) = stem ++ ".wav".toList := by
    rw [AFL.rowFilename, List.append_assoc,
      takeWhile_all_append _ stem _ (fun c hc => by simpa using h c hc)]
    rfl
  refine ⟨hrow, ?_, ?_⟩
  · rw [AFL.loadedPath, hrow, AFL.dropLast3]
    have hlen : (stem ++ ".wav".toList).length - 3 = stem.length + 1 := by
      simp [String.toList]
    rw [hlen, List.take_append_eq_append_take, List.take_of_length_le (by omega)]
    have htail : (".wav".toList.take (stem.length + 1 - stem.length)) = ['.'] := by
      have hs : stem.length + 1 - stem.length = 1 := by omega
      rw [hs]
      rfl
    rw [htail]
    simp [String.toList]
  · intro hcon
    have hl := congrArg List.length hcon
    simp [String.toList] at hl

/-- Witness for C10 at the concrete row x.wav,1.5 with newline. -/
theorem C10_loaded_path_witness :
    AFL.loadedPath (['x'] ++ ".wav,".toList ++ "1.5\n".toList) = ['x'] ++ ".pt".toList :=
  (C10_loaded_path ['x'] "1.5\n".toList (by decide)).2.1

end Voicebox
